import Mathlib

set_option maxRecDepth 1000000
set_option maxHeartbeats 1000000

/-!
Verification of the write-buffer / batching engine of `signalk-to-mongodb`
(`src/mongodb.js`, class `MongoDb`).  The JavaScript class is shallowly
embedded: machine integers are `Nat` with explicit `% 2^32` where the
JavaScript 32-bit coercions matter, the `Map` buffer is an insertion-ordered
association list, wall-clock instants are epoch milliseconds (`Nat`), and the
out-of-scope MongoDB client is an oracle (`ok`, `ins : Nat → Bool`) telling
whether the n-th connection attempt / bulk-insert call succeeds.
-/

namespace SigMongo

/-- One step of the rolling hash in `MongoDb.getPoint` (src/mongodb.js 84-88):
`hash = (hash * 33) ^ c` on JavaScript numbers.  After each `^` the value is a
signed 32-bit integer; we track its unsigned 32-bit representative, for which
the step is multiply by 33, reduce mod `2^32`, then bitwise xor with the
character code. -/
def hashStep (h c : Nat) : Nat := Nat.xor (h * 33 % 4294967296) c

/-- The hash loop of `MongoDb.getPoint`: `let i = json.length; while (i--)`
scans the serialized record from the last character to the first, folding
each UTF-16 code unit with `hashStep`.  `List.foldr` applies the step to the
last character first, matching the reverse scan. -/
def rollHash (seed : Nat) (cs : List Char) : Nat :=
  cs.foldr (fun c h => hashStep h c.toNat) seed

/-- `point.uid = (hash1 >>> 0) * 4096 + (hash2 >>> 0)` (src/mongodb.js 89)
with seed constants 5381 and 52711.  Both addends are below `2^32`, so the
combination `hash1 * 2^12 + hash2` is exact in a 64-bit float. -/
def uidOf (json : String) : Nat :=
  rollHash 5381 json.data * 4096 + rollHash 52711 json.data

/-- The application payload of a record as produced by the adapter layer
(`plugin.handleUpdates` in src/index.js): SignalK source, context, path, the
measured value (kept as its serialized JSON text) and the optional
producer-supplied timestamp (epoch milliseconds; `none` when the producer
sent no usable time, the falsy case of `point.time ? ... : new Date()`). -/
structure RawPoint where
  source : String
  context : String
  path : String
  value : String
  time : Option Nat
  deriving DecidableEq

/-- Stand-in for `JSON.stringify` of a JavaScript `Date`: the decimal
rendering of the epoch millisecond.  The real rendering is the ISO-8601
string, which is injective in the millisecond instant exactly like this
one; no claim depends on the concrete characters, only on whether two
serialized records coincide. -/
def dateJson (t : Nat) : String := toString t

/-- `JSON.stringify(point)` at the moment the hash is computed in
`MongoDb.getPoint` (src/mongodb.js 80): the payload properties in insertion
order (`source`, `context`, `path`, `time`, `value`, any tags folded into
`value` here), with `time` already overwritten and `expiry` just appended by
lines 78-79.  `uid` is not yet present.  Braces are written escaped. -/
def pointJson (r : RawPoint) (time expiry : Nat) : String :=
  "\x7b\x22source\x22:\x22" ++ r.source ++
  "\x22,\x22context\x22:\x22" ++ r.context ++
  "\x22,\x22path\x22:\x22" ++ r.path ++
  "\x22,\x22time\x22:\x22" ++ dateJson time ++
  "\x22,\x22value\x22:" ++ r.value ++
  ",\x22expiry\x22:\x22" ++ dateJson expiry ++ "\x22\x7d"

/-- A record after `MongoDb.getPoint`: payload plus the engine-assigned
`time`, `expiry` and `uid` fields. -/
structure Point where
  raw : RawPoint
  time : Nat
  expiry : Nat
  uid : Nat
  deriving DecidableEq

/-- `MongoDb.getPoint` (src/mongodb.js 76-96): `point.time` defaults to the
arrival instant, `point.expiry = Date.now() + ttlMillis`, and `point.uid` is
the combined hash of `JSON.stringify(point)` — serialized *after* `time` and
`expiry` were assigned. -/
def getPoint (now ttlMillis : Nat) (r : RawPoint) : Point :=
  let t := r.time.getD now
  let e := now + ttlMillis
  { raw := r, time := t, expiry := e, uid := uidOf (pointJson r t e) }

/-- JavaScript `Map.set`: when the key is already present its value is
overwritten in place (the entry keeps its original insertion position),
otherwise the new entry is appended at the end. -/
def mapSet {α : Type} (m : List (Nat × α)) (k : Nat) (v : α) : List (Nat × α) :=
  if m.any (fun kv => kv.1 == k) then
    m.map (fun kv => if kv.1 = k then (k, v) else kv)
  else m ++ [(k, v)]

/-- `batch.forEach(point => this.buffer.delete(point.uid))`
(src/mongodb.js 151): every buffer entry whose key is the `uid` of some
batch member is removed. -/
def deleteBatch (m : List (Nat × Point)) (batch : List Point) : List (Nat × Point) :=
  m.filter (fun kv => batch.all (fun p => p.uid != kv.1))

/-- Fuel-based chunking; `chunksOfGo k fuel l` splits `l` into consecutive
`take k` blocks.  The fuel (initially `l.length`) only forces termination;
it never runs out when `0 < k`. -/
def chunksOfGo {α : Type} (k : Nat) : Nat → List α → List (List α)
  | _, [] => []
  | 0, _ :: _ => []
  | fuel + 1, x :: xs => (x :: xs).take k :: chunksOfGo k fuel ((x :: xs).drop k)

/-- The successive batches the `while (batches--)` loop of `MongoDb.flush`
pulls from the buffer iterator: consecutive blocks of at most `k` values,
in insertion order.  For `0 < k` there are exactly `⌈l.length / k⌉` blocks,
the number `Math.ceil(this.buffer.size / batchSize)` computed once at flush
start (src/mongodb.js 136). -/
def chunksOf {α : Type} (k : Nat) (l : List α) : List (List α) :=
  chunksOfGo k l.length l

/-- The mutable state of a `MongoDb` instance (src/mongodb.js 11-23):
the buffer `Map`, the connection flag, the single-flight `flushing` flag,
the flush deadline and the configuration applied by `start`. -/
structure MState where
  buffer : List (Nat × Point)
  isConnected : Bool
  flushing : Bool
  flushExpiry : Nat
  flushMillis : Nat
  ttlMillis : Nat
  batchSize : Nat
  maxBuffer : Nat
  deriving DecidableEq

/-- The `while (batches--)` loop of `MongoDb.flush` (src/mongodb.js 138-156)
over the snapshot of buffer values, threading the state.  `ins b` tells
whether the b-th `insertMany` call of this invocation succeeds; `acc`
accumulates the issued calls (most recent first).  On success the batch
members are deleted from the buffer; on failure the exception aborts the
loop and propagates, so the returned state still has `flushing = true` and
the old `flushExpiry` (there is no try/finally in this version of `flush`).
The final component records whether an exception escaped. -/
def flushGo (ins : Nat → Bool) (now : Nat) :
    List (List Point) → MState → List (List Point) → MState × List (List Point) × Bool
  | [], s, acc =>
    ({ s with flushExpiry := now + s.flushMillis, flushing := false }, acc.reverse, false)
  | c :: rest, s, acc =>
    if c.isEmpty then flushGo ins now rest s acc
    else if ins acc.length then
      flushGo ins now rest { s with buffer := deleteBatch s.buffer c } (c :: acc)
    else (s, (c :: acc).reverse, true)

/-- `MongoDb.flush` (src/mongodb.js 133-159).  Returns the new state, the
list of issued `insertMany` calls (a failed call is issued and included),
and whether an exception escaped the invocation.  `batchSize = 0` is
excluded wherever it matters: there `Math.ceil(size / 0) = Infinity` and the
JavaScript loop would not terminate. -/
def flush (ins : Nat → Bool) (now : Nat) (s : MState) : MState × List (List Point) × Bool :=
  if s.flushing = true ∨ s.isConnected = false then (s, [], false)
  else
    flushGo ins now (chunksOf s.batchSize (s.buffer.map Prod.snd))
      { s with flushing := true } []

/-- Result of one `MongoDb.send` call, as observable by the host:
`ok` — returned normally; `capacityErr` — the `Buffer exceeded` throw was
caught and logged by `send` itself; `writeErrCaught` — a bulk-insert failure
inside the triggered `flush` was caught and logged by `send`;
`connErrEscaped` — the reconnect attempt failed and its error propagated out
of `send` (the `await this.connect()` on line 100 is outside the
try/catch), rejecting the returned promise. -/
inductive SendResult where
  | ok
  | capacityErr
  | writeErrCaught
  | connErrEscaped
  deriving DecidableEq

/-- Everything one `send` invocation produces: the final state, how the call
ended, the bulk-insert calls it issued, and how many connection attempts the
reconnect path made (0 when already connected). -/
structure SendOut where
  state : MState
  res : SendResult
  calls : List (List Point)
  connAttempts : Nat
  deriving DecidableEq

/-- The retry loop of `MongoDb.connect` (src/mongodb.js 33-51), with `base`
the index of the next attempt and the second argument the number of
attempts still allowed.  Returns (connected, attempts made, backoff delays
waited).  A result `false` means the final attempt's error was rethrown,
with `isConnected` never set. -/
def connectGo (ok : Nat → Bool) (retryDelay : Nat) : Nat → Nat → Bool × Nat × List Nat
  | _, 0 => (false, 0, [])
  | base, 1 => (ok base, 1, [])
  | base, n + 2 =>
    if ok base then (true, 1, [])
    else
      let r := connectGo ok retryDelay (base + 1) (n + 1)
      (r.1, r.2.1 + 1, retryDelay * 2 ^ base :: r.2.2)

/-- `MongoDb.connect(retryCount = 5, retryDelay = 1000)`:
`for (let attempt = 0; attempt <= retryCount; attempt++)` makes
`retryCount + 1` attempts in total; after failed attempt `attempt` (except
the last) it waits `retryDelay * 2 ^ attempt`. -/
def connect (ok : Nat → Bool) (retryCount retryDelay : Nat) : Bool × Nat × List Nat :=
  connectGo ok retryDelay 0 (retryCount + 1)

/-- The state right after lines 107-109 of `MongoDb.send`:
`point = this.getPoint(point); this.buffer.set(point.uid, point)`. -/
def staged (now : Nat) (r : RawPoint) (s : MState) : MState :=
  { s with buffer := mapSet s.buffer (getPoint now s.ttlMillis r).uid (getPoint now s.ttlMillis r) }

/-- The try-block of `MongoDb.send` (src/mongodb.js 102-115), entered with
`isConnected = true`: capacity check against `maxBuffer` (a full buffer
throws before the point is prepared or staged), then `getPoint`, `Map.set`
keyed by `uid` (`staged`), then the size- or time-triggered `flush` whose
errors are caught by this try-block. -/
def sendBody (ins : Nat → Bool) (now : Nat) (r : RawPoint) (s : MState)
    (attempts : Nat) : SendOut :=
  if s.maxBuffer ≤ s.buffer.length then ⟨s, .capacityErr, [], attempts⟩
  else if (staged now r s).batchSize ≤ (staged now r s).buffer.length
      ∨ (staged now r s).flushExpiry < now then
    ⟨(flush ins now (staged now r s)).1,
     if (flush ins now (staged now r s)).2.2 then .writeErrCaught else .ok,
     (flush ins now (staged now r s)).2.1, attempts⟩
  else ⟨staged now r s, .ok, [], attempts⟩

/-- `MongoDb.send` (src/mongodb.js 98-119).  When disconnected it first runs
`await this.connect()` with the default parameters (6 attempts); that call
sits *outside* the try/catch, so on exhaustion the error escapes `send` and
nothing is staged.  On success (or when already connected) the try-block
`sendBody` runs. -/
def send (ok ins : Nat → Bool) (now : Nat) (r : RawPoint) (s : MState) : SendOut :=
  if s.isConnected then sendBody ins now r s 0
  else if (connect ok 5 1000).1 then
    sendBody ins now r { s with isConnected := true } (connect ok 5 1000).2.1
  else ⟨s, .connErrEscaped, [], (connect ok 5 1000).2.1⟩

/-- The expiry sweep of `MongoDb.housekeeping` (src/mongodb.js 122-127):
delete every buffer entry with `timeNow > point.expiry`. -/
def sweepExpired (now : Nat) (s : MState) : MState :=
  { s with buffer := s.buffer.filter (fun kv => ! decide (kv.2.expiry < now)) }

/-- `MongoDb.housekeeping` (src/mongodb.js 121-131): the expiry sweep, then
a call to `flush` when `timeNow > flushExpiry`. -/
def housekeeping (ins : Nat → Bool) (now : Nat) (s : MState) :
    MState × List (List Point) × Bool :=
  if (sweepExpired now s).flushExpiry < now then flush ins now (sweepExpired now s)
  else (sweepExpired now s, [], false)

/-- The state right after `MongoDb.start` (src/mongodb.js 53-61) at instant
`t0`.  `flushSecs` and `ttlSecs` go through JavaScript truthiness:
`options.flushSecs ? options.flushSecs * 1000 : this.flushMillis` keeps the
initial `flushMillis = 0` when `flushSecs` is 0, and likewise keeps
`ttlMillis = 60000` when `ttlSecs` is 0.  The flush deadline is armed at
`t0 + flushMillis`. -/
def startState (t0 flushSecs ttlSecs batchSize maxBuffer : Nat) : MState :=
  let fm := if flushSecs = 0 then 0 else flushSecs * 1000
  { buffer := []
    isConnected := true
    flushing := false
    flushExpiry := t0 + fm
    flushMillis := fm
    ttlMillis := if ttlSecs = 0 then 60000 else ttlSecs * 1000
    batchSize := batchSize
    maxBuffer := maxBuffer }

/-- A record object as it lives on the JavaScript heap: the payload (whose
`time` property is whatever the adapter put there) plus the two
engine-assigned properties `expiry` and `uid`, absent (`none`) until
`getPoint` writes them; `getPoint` also overwrites the `time` property in
place. -/
structure PObj where
  raw : RawPoint
  expiry : Option Nat
  uid : Option Nat
  deriving DecidableEq

/-- Heap read: the object stored at address `a`. -/
def heapGet (h : List (Nat × PObj)) (a : Nat) : Option PObj :=
  (h.find? (fun kv => kv.1 == a)).map Prod.snd

/-- Heap write at an existing address: the object at `a` is replaced, no
address is added or removed. -/
def heapSet (h : List (Nat × PObj)) (a : Nat) (o : PObj) : List (Nat × PObj) :=
  h.map (fun kv => if kv.1 = a then (a, o) else kv)

/-- Lines 107-109 of `MongoDb.send` over an explicit heap:
`point = this.getPoint(point)` mutates the caller's object in place
(`getPoint` assigns `point.time`, `point.expiry`, `point.uid` on its
argument and returns the same reference) and `this.buffer.set(point.uid,
point)` stores that same reference — here, the same address `a`. -/
def stagePoint (now ttl : Nat) (h : List (Nat × PObj)) (buf : List (Nat × Nat))
    (a : Nat) : List (Nat × PObj) × List (Nat × Nat) :=
  match heapGet h a with
  | none => (h, buf)
  | some o =>
    let t := o.raw.time.getD now
    let e := now + ttl
    let u := uidOf (pointJson o.raw t e)
    (heapSet h a { raw := { o.raw with time := some t }, expiry := some e, uid := some u },
     mapSet buf u a)

/-! ### Concrete fixtures used by witnesses and counterexamples -/

/-- A payload that only varies in its `value` text; the producer supplied
`time = 5`. -/
def rawP (v : String) : RawPoint := ⟨"a", "b", "c", v, some 5⟩

/-- A prepared point with `uid = i`, used to build concrete buffers for the
flush scenarios (how the uid was obtained is irrelevant to `flush`). -/
def mkPt (i : Nat) : Point := ⟨⟨"s", "c", "p", "v", some 0⟩, 0, 1000000, i⟩

/-- A buffer holding `n` distinct staged points, keys `0, …, n-1`. -/
def bufN (n : Nat) : List (Nat × Point) := (List.range n).map (fun i => (i, mkPt i))

/-- A connected, idle engine holding `n` staged points: `flushExpiry = 0`,
`flushMillis = 60000`, the given batch size, `maxBuffer = 1000`. -/
def sN (n batchSize : Nat) : MState := ⟨bufN n, true, false, 0, 60000, 60000, batchSize, 1000⟩

/-- Sequential `send` calls, collecting each call's result. -/
def sendFold (ok ins : Nat → Bool) (now : Nat) (rs : List RawPoint) (s : MState) :
    MState × List SendResult :=
  rs.foldl (fun acc r => let o := send ok ins now r acc.1; (o.state, acc.2 ++ [o.res])) (s, [])

/-- A connected, empty engine with `maxBuffer = 3` and a far flush deadline,
so that only the capacity check can interfere with staging. -/
def capState : MState := ⟨[], true, false, 1000000, 0, 60000, 10, 3⟩

/-- Four records with pairwise different payloads (and, as their evaluation
shows, pairwise different fingerprints). -/
def fourRaws : List RawPoint := [rawP "1", rawP "2", rawP "3", rawP "4"]

/-- A disconnected engine with an empty buffer. -/
def discState : MState := ⟨[], false, false, 1000000, 0, 60000, 10, 1000⟩

/-- The engine right after `start` with `flushSecs = 0` (periodic flush
"disabled" per the plugin schema), `ttlSecs = 180`, `batchSize = 100`, and
one record staged at `t = 0`. -/
def c4Tick : MState :=
  (send (fun _ => true) (fun _ => true) 0 (rawP "1") (startState 0 0 180 100 1000)).state

/-- A heap object at the start of `send`: payload with producer time 3,
engine fields still absent. -/
def o7 : PObj := ⟨⟨"a", "b", "c", "1", some 3⟩, none, none⟩

/-- Well-formedness of the buffer as maintained by the class: it is a
JavaScript `Map` (keys are distinct) and every entry was stored by
`this.buffer.set(point.uid, point)`, so its key is its point's `uid`. -/
def BufWF (buf : List (Nat × Point)) : Prop :=
  (buf.map Prod.fst).Nodup ∧ ∀ kv ∈ buf, kv.2.uid = kv.1

/-- A store whose every bulk insert succeeds (also used as an always-successful
connection oracle). -/
def insAllOk : Nat → Bool := fun _ => true

/-- A store whose every bulk insert fails. -/
def insAllFail : Nat → Bool := fun _ => false

/-- A store accepting the first bulk-insert call of a flush and failing the
second. -/
def insFailSecond : Nat → Bool := fun b => b == 0

/-- A connection oracle for which every attempt fails. -/
def connNever : Nat → Bool := fun _ => false

/-- A connected engine whose buffer already holds `maxBuffer = 3` entries. -/
def fullState : MState := ⟨bufN 3, true, false, 1000000, 0, 60000, 10, 3⟩

/-- An engine observed while another flush is in flight: `flushing = true`. -/
def busyState : MState := ⟨bufN 5, true, true, 0, 60000, 60000, 10, 1000⟩

/-- A one-object heap: the caller's record lives at address 7. -/
def heap7 : List (Nat × PObj) := [(7, o7)]

/-! ### Lemmas about the embedded operations -/

theorem mapSet_self_mem {α : Type} (m : List (Nat × α)) (k : Nat) (v : α) :
    (k, v) ∈ mapSet m k v := by
  by_cases h : m.any (fun kv => kv.1 == k) = true
  · simp only [mapSet, h, if_true]
    rcases List.any_eq_true.mp h with ⟨kv, hmem, hk⟩
    refine List.mem_map.mpr ⟨kv, hmem, ?_⟩
    simp [beq_iff_eq.mp hk]
  · simp [mapSet, h]

theorem mapSet_length_le {α : Type} (m : List (Nat × α)) (k : Nat) (v : α) :
    (mapSet m k v).length ≤ m.length + 1 := by
  by_cases h : m.any (fun kv => kv.1 == k) = true
  · simp [mapSet, h]
  · simp [mapSet, h]

/-- Setting an already-present key twice keeps the number of entries: the
second `Map.set` with the same key overwrites in place. -/
theorem mapSet_mapSet_nil_length {α : Type} (k : Nat) (v w : α) :
    (mapSet (mapSet ([] : List (Nat × α)) k v) k w).length = 1 := by
  simp [mapSet]

theorem connectGo_fail (ok : Nat → Bool) (retryDelay : Nat)
    (hfail : ∀ i, ok i = false) :
    ∀ n base, connectGo ok retryDelay base (n + 1)
      = (false, n + 1, (List.range n).map (fun i => retryDelay * 2 ^ (base + i))) := by
  intro n
  induction n with
  | zero => intro base; simp [connectGo, hfail base]
  | succ n ih =>
    intro base
    have hlist : retryDelay * 2 ^ base ::
        (List.range n).map (fun i => retryDelay * 2 ^ (base + 1 + i))
        = (List.range (n + 1)).map (fun i => retryDelay * 2 ^ (base + i)) := by
      rw [List.range_succ_eq_map, List.map_cons, List.map_map]
      congr 1
      refine List.map_congr_left ?_
      intro a _
      have h2 : base + 1 + a = base + (a + 1) := by omega
      simp [Function.comp, h2]
    simp [connectGo, hfail base, ih (base + 1), hlist]

theorem chunksOfGo_nil {α : Type} (k f : Nat) : chunksOfGo k f ([] : List α) = [] := by
  cases f <;> rfl

theorem chunksOfGo_succ_cons {α : Type} (k f : Nat) (x : α) (xs : List α) :
    chunksOfGo k (f + 1) (x :: xs) = (x :: xs).take k :: chunksOfGo k f ((x :: xs).drop k) :=
  rfl

theorem chunksOfGo_congr {α : Type} (k : Nat) (hk : 0 < k) :
    ∀ f1 f2 (l : List α), l.length ≤ f1 → l.length ≤ f2 →
      chunksOfGo k f1 l = chunksOfGo k f2 l := by
  intro f1
  induction f1 with
  | zero =>
    intro f2 l h1 _
    have hl : l = [] := List.length_eq_zero.mp (Nat.le_zero.mp h1)
    subst hl
    rw [chunksOfGo_nil, chunksOfGo_nil]
  | succ f1 ih =>
    intro f2 l h1 h2
    cases l with
    | nil => rw [chunksOfGo_nil, chunksOfGo_nil]
    | cons x xs =>
      cases f2 with
      | zero => simp at h2
      | succ f2 =>
        rw [chunksOfGo_succ_cons, chunksOfGo_succ_cons]
        congr 1
        apply ih
        · simp only [List.length_drop, List.length_cons]
          simp only [List.length_cons] at h1
          omega
        · simp only [List.length_drop, List.length_cons]
          simp only [List.length_cons] at h2
          omega

theorem chunksOf_cons {α : Type} {k : Nat} (hk : 0 < k) (x : α) (xs : List α) :
    chunksOf k (x :: xs) = (x :: xs).take k :: chunksOf k ((x :: xs).drop k) := by
  unfold chunksOf
  rw [List.length_cons, chunksOfGo_succ_cons]
  congr 1
  apply chunksOfGo_congr k hk
  · rw [List.length_drop]
    simp only [List.length_cons]
    omega
  · exact le_rfl

theorem chunksOf_length_aux {α : Type} {k : Nat} (hk : 0 < k) :
    ∀ n (l : List α), l.length ≤ n →
      (chunksOf k l).length = (l.length + k - 1) / k := by
  intro n
  induction n with
  | zero =>
    intro l h
    have hl : l = [] := List.length_eq_zero.mp (Nat.le_zero.mp h)
    subst hl
    simp only [chunksOf, List.length_nil, chunksOfGo_nil]
    exact (Nat.div_eq_of_lt (by omega)).symm
  | succ n ih =>
    intro l h
    cases l with
    | nil =>
      simp only [chunksOf, List.length_nil, chunksOfGo_nil]
      exact (Nat.div_eq_of_lt (by omega)).symm
    | cons x xs =>
      rw [chunksOf_cons hk, List.length_cons]
      have hdl : ((x :: xs).drop k).length = xs.length + 1 - k := by
        rw [List.length_drop, List.length_cons]
      have hrec := ih ((x :: xs).drop k)
        (by rw [hdl]; simp only [List.length_cons] at h; omega)
      rw [List.length_cons, hrec, hdl]
      have e2 : xs.length + 1 + k - 1 = xs.length + k := by omega
      rw [e2, Nat.add_div_right _ hk]
      rcases le_or_lt k (xs.length + 1) with hle | hlt
      · have e1 : xs.length + 1 - k + k - 1 = xs.length := by omega
        rw [e1]
      · have e1 : xs.length + 1 - k = 0 := by omega
        rw [e1, Nat.div_eq_of_lt (by omega), Nat.div_eq_of_lt (by omega)]

/-- Deleting a successfully inserted batch — the `uid`s of the first `k`
buffer values — removes exactly the first `k` entries of a well-formed
buffer: `Map` keys are distinct and each entry's key is its point's `uid`. -/
theorem deleteBatch_take :
    ∀ (buf : List (Nat × Point)) (k : Nat), BufWF buf →
      deleteBatch buf ((buf.take k).map Prod.snd) = buf.drop k := by
  intro buf
  induction buf with
  | nil => intro k _; simp [deleteBatch]
  | cons kv t ih =>
    intro k hwf
    obtain ⟨hnd, huid⟩ := hwf
    rw [List.map_cons, List.nodup_cons] at hnd
    cases k with
    | zero => simp [deleteBatch]
    | succ k =>
      have hkey : kv.2.uid = kv.1 := huid kv (List.mem_cons_self kv t)
      have hkeyt : ∀ e ∈ t, kv.1 ≠ e.1 := by
        intro e he hEq
        exact hnd.1 (hEq ▸ List.mem_map_of_mem Prod.fst he)
      rw [List.take_succ_cons, List.map_cons, List.drop_succ_cons]
      show List.filter _ (kv :: t) = t.drop k
      rw [List.filter_cons]
      have hhead : ((kv.2 :: (t.take k).map Prod.snd).all (fun p => p.uid != kv.1)) = false := by
        simp [List.all_cons, hkey]
      rw [hhead]
      simp only [Bool.false_eq_true, if_false]
      have hcongr : List.filter
            (fun e => (kv.2 :: (t.take k).map Prod.snd).all (fun p => p.uid != e.1)) t
          = List.filter (fun e => ((t.take k).map Prod.snd).all (fun p => p.uid != e.1)) t := by
        apply List.filter_congr
        intro e he
        have h1 : (kv.2.uid != e.1) = true := by
          rw [bne_iff_ne, hkey]
          exact hkeyt e he
        simp [List.all_cons, h1]
      rw [hcongr]
      exact ih k ⟨hnd.2, fun e he => huid e (List.mem_cons_of_mem kv he)⟩

/-- Well-formedness survives dropping a prefix of the buffer. -/
theorem BufWF_drop {buf : List (Nat × Point)} (k : Nat) (hwf : BufWF buf) :
    BufWF (buf.drop k) := by
  obtain ⟨hnd, huid⟩ := hwf
  constructor
  · rw [List.map_drop]
    exact List.Nodup.sublist (List.drop_sublist k (buf.map Prod.fst)) hnd
  · exact fun e he => huid e (List.mem_of_mem_drop he)

/-- `flushGo` with every `insertMany` succeeding: it issues exactly the
precomputed chunks of the buffer snapshot, empties the buffer, then resets
`flushExpiry` and clears `flushing` (src/mongodb.js 157-158). -/
theorem flushGo_success (ins : Nat → Bool) (now k : Nat) (hk : 0 < k)
    (hins : ∀ b, ins b = true) :
    ∀ n (s : MState) (acc : List (List Point)), s.buffer.length ≤ n → BufWF s.buffer →
      flushGo ins now (chunksOf k (s.buffer.map Prod.snd)) s acc
        = ({ s with buffer := [], flushExpiry := now + s.flushMillis, flushing := false },
           acc.reverse ++ chunksOf k (s.buffer.map Prod.snd), false) := by
  intro n
  induction n with
  | zero =>
    intro s acc h hwf
    obtain ⟨b, c1, c2, c3, c4, c5, c6, c7⟩ := s
    have hb : b = [] := List.length_eq_zero.mp (Nat.le_zero.mp h)
    subst hb
    simp [flushGo, chunksOf, chunksOfGo_nil]
  | succ n ih =>
    intro s acc h hwf
    obtain ⟨b, c1, c2, c3, c4, c5, c6, c7⟩ := s
    cases b with
    | nil => simp [flushGo, chunksOf, chunksOfGo_nil]
    | cons e t =>
      obtain ⟨k1, rfl⟩ : ∃ k1, k = k1 + 1 := ⟨k - 1, by omega⟩
      rw [List.map_cons, chunksOf_cons hk, List.take_succ_cons, List.drop_succ_cons,
        ← List.map_take, ← List.map_drop]
      rw [flushGo]
      rw [if_neg (by simp)]
      rw [if_pos (hins acc.length)]
      have hdel : deleteBatch (e :: t) (e.2 :: (t.take k1).map Prod.snd) = t.drop k1 := by
        have h1 := deleteBatch_take (e :: t) (k1 + 1) hwf
        rw [List.take_succ_cons, List.map_cons] at h1
        rw [h1, List.drop_succ_cons]
      have hlen2 : (t.drop k1).length ≤ n := by
        rw [List.length_drop]
        simp only [List.length_cons] at h
        omega
      have hwf2 : BufWF (t.drop k1) := by
        have h2 := BufWF_drop (k1 + 1) hwf
        rwa [List.drop_succ_cons] at h2
      have hih := ih ⟨t.drop k1, c1, c2, c3, c4, c5, c6, c7⟩
        ((e.2 :: (t.take k1).map Prod.snd) :: acc) hlen2 hwf2
      rw [show ({ (⟨e :: t, c1, c2, c3, c4, c5, c6, c7⟩ : MState) with
            buffer := deleteBatch (e :: t) (e.2 :: (t.take k1).map Prod.snd) } : MState)
          = (⟨t.drop k1, c1, c2, c3, c4, c5, c6, c7⟩ : MState) from by rw [hdel]]
      rw [hih]
      simp [List.append_assoc]

/-- `flushGo` when the `insertMany` call of batch index `acc.length + j`
throws (all earlier ones succeed): the loop is aborted by the exception —
the failed call is the last one issued — and the returned state has lost
only the first `j` successfully written batches; the failed batch's records
are still in the buffer, and the final statements of `flush` (deadline
reset, flag clear) are never reached. -/
theorem flushGo_fail (ins : Nat → Bool) (now k : Nat) (hk : 0 < k) :
    ∀ j (s : MState) (acc : List (List Point)), BufWF s.buffer →
      (∀ b, b < acc.length + j → ins b = true) → ins (acc.length + j) = false →
      j * k < s.buffer.length →
      (flushGo ins now (chunksOf k (s.buffer.map Prod.snd)) s acc).1
          = { s with buffer := s.buffer.drop (j * k) } ∧
      (flushGo ins now (chunksOf k (s.buffer.map Prod.snd)) s acc).2.1.length
          = acc.length + j + 1 ∧
      (flushGo ins now (chunksOf k (s.buffer.map Prod.snd)) s acc).2.2 = true := by
  intro j
  induction j with
  | zero =>
    intro s acc hwf hpre hj hlt
    obtain ⟨b, c1, c2, c3, c4, c5, c6, c7⟩ := s
    simp only [Nat.zero_mul, List.drop_zero] at hlt ⊢
    cases b with
    | nil => simp at hlt
    | cons e t =>
      obtain ⟨k1, rfl⟩ : ∃ k1, k = k1 + 1 := ⟨k - 1, by omega⟩
      rw [List.map_cons, chunksOf_cons hk, List.take_succ_cons, List.drop_succ_cons,
        ← List.map_take, ← List.map_drop]
      rw [flushGo]
      rw [if_neg (by simp)]
      simp only [Nat.add_zero] at hj
      rw [if_neg (by simp [hj])]
      refine ⟨rfl, ?_, rfl⟩
      simp
  | succ j ih =>
    intro s acc hwf hpre hj hlt
    obtain ⟨b, c1, c2, c3, c4, c5, c6, c7⟩ := s
    cases b with
    | nil => exact absurd hlt (by simp)
    | cons e t =>
      obtain ⟨k1, rfl⟩ : ∃ k1, k = k1 + 1 := ⟨k - 1, by omega⟩
      rw [List.map_cons, chunksOf_cons hk, List.take_succ_cons, List.drop_succ_cons,
        ← List.map_take, ← List.map_drop]
      rw [flushGo]
      rw [if_neg (by simp)]
      rw [if_pos (hpre acc.length (by omega))]
      have hdel : deleteBatch (e :: t) (e.2 :: (t.take k1).map Prod.snd) = t.drop k1 := by
        have h1 := deleteBatch_take (e :: t) (k1 + 1) hwf
        rw [List.take_succ_cons, List.map_cons] at h1
        rw [h1, List.drop_succ_cons]
      rw [show ({ (⟨e :: t, c1, c2, c3, c4, c5, c6, c7⟩ : MState) with
            buffer := deleteBatch (e :: t) (e.2 :: (t.take k1).map Prod.snd) } : MState)
          = (⟨t.drop k1, c1, c2, c3, c4, c5, c6, c7⟩ : MState) from by rw [hdel]]
      have hwf2 : BufWF (t.drop k1) := by
        have h2 := BufWF_drop (k1 + 1) hwf
        rwa [List.drop_succ_cons] at h2
      have hlt2 : j * (k1 + 1) < (t.drop k1).length := by
        rw [List.length_drop]
        rw [Nat.succ_mul] at hlt
        simp only [List.length_cons] at hlt
        omega
      have hih := ih ⟨t.drop k1, c1, c2, c3, c4, c5, c6, c7⟩
        ((e.2 :: (t.take k1).map Prod.snd) :: acc)
        hwf2
        (by
          intro b hb
          apply hpre
          simp only [List.length_cons] at hb
          omega)
        (by
          simp only [List.length_cons]
          have h3 : acc.length + 1 + j = acc.length + (j + 1) := by omega
          rw [h3]
          exact hj)
        hlt2
      refine ⟨?_, ?_, hih.2.2⟩
      · rw [hih.1]
        congr 1
        rw [show (j + 1) * (k1 + 1) = j * (k1 + 1) + k1 + 1 from by ring,
          List.drop_succ_cons, List.drop_drop, Nat.add_comm k1 (j * (k1 + 1))]
      · rw [hih.2.1]
        simp only [List.length_cons]
        omega

/-- `flushGo` never adds buffer entries: on every path the buffer is either
left alone or filtered. -/
theorem flushGo_buffer_le (ins : Nat → Bool) (now : Nat) :
    ∀ (cs : List (List Point)) (s : MState) (acc : List (List Point)),
      (flushGo ins now cs s acc).1.buffer.length ≤ s.buffer.length := by
  intro cs
  induction cs with
  | nil => intro s acc; exact le_rfl
  | cons c rest ih =>
    intro s acc
    rw [flushGo]
    by_cases hce : c.isEmpty = true
    · rw [if_pos hce]; exact ih s acc
    · rw [if_neg hce]
      by_cases hins : ins acc.length = true
      · rw [if_pos hins]
        refine le_trans (ih _ _) ?_
        exact List.length_filter_le _ _
      · rw [if_neg hins]

/-- `flush` never adds buffer entries. -/
theorem flush_buffer_le (ins : Nat → Bool) (now : Nat) (s : MState) :
    (flush ins now s).1.buffer.length ≤ s.buffer.length := by
  unfold flush
  split
  · exact le_rfl
  · exact flushGo_buffer_le ins now _ _ _

/-- The try-block of `send` respects the capacity bound: an already-full
buffer is rejected untouched, otherwise at most one entry is added (and a
triggered flush only removes entries). -/
theorem staged_buffer_le (now : Nat) (r : RawPoint) (s : MState) :
    (staged now r s).buffer.length ≤ s.buffer.length + 1 :=
  mapSet_length_le _ _ _

theorem sendBody_buffer_le (ins : Nat → Bool) (now : Nat) (r : RawPoint) (s : MState)
    (att : Nat) (hle : s.buffer.length ≤ s.maxBuffer) :
    (sendBody ins now r s att).state.buffer.length ≤ s.maxBuffer := by
  by_cases hcap : s.maxBuffer ≤ s.buffer.length
  · unfold sendBody
    rw [if_pos hcap]
    exact hle
  · unfold sendBody
    rw [if_neg hcap]
    by_cases htrig : (staged now r s).batchSize ≤ (staged now r s).buffer.length
        ∨ (staged now r s).flushExpiry < now
    · rw [if_pos htrig]
      show (flush ins now (staged now r s)).1.buffer.length ≤ s.maxBuffer
      refine le_trans (flush_buffer_le ins now _) ?_
      have h1 := staged_buffer_le now r s
      omega
    · rw [if_neg htrig]
      show (staged now r s).buffer.length ≤ s.maxBuffer
      have h1 := staged_buffer_le now r s
      omega

/-- `send` respects the capacity bound on every path (already connected,
reconnect success, reconnect failure). -/
theorem send_buffer_le (ok ins : Nat → Bool) (now : Nat) (r : RawPoint) (s : MState)
    (hle : s.buffer.length ≤ s.maxBuffer) :
    (send ok ins now r s).state.buffer.length ≤ s.maxBuffer := by
  by_cases hc : s.isConnected = true
  · unfold send
    rw [if_pos hc]
    exact sendBody_buffer_le ins now r s 0 hle
  · unfold send
    rw [if_neg hc]
    by_cases hcon : (connect ok 5 1000).1 = true
    · rw [if_pos hcon]
      exact sendBody_buffer_le ins now r _ _ hle
    · rw [if_neg hcon]
      exact hle

/-- Writing through `heapSet` changes no addresses: no object is allocated,
moved or freed. -/
theorem heapSet_fst (h : List (Nat × PObj)) (a : Nat) (o : PObj) :
    (heapSet h a o).map Prod.fst = h.map Prod.fst := by
  unfold heapSet
  rw [List.map_map]
  refine List.map_congr_left ?_
  intro kv _
  by_cases hk : kv.1 = a
  · simp [hk]
  · simp [hk]

/-- Reading back an address that `heapSet` just wrote yields the new object
(provided the address existed). -/
theorem heapGet_heapSet_self :
    ∀ (h : List (Nat × PObj)) (a : Nat) (o o0 : PObj), heapGet h a = some o0 →
      heapGet (heapSet h a o) a = some o := by
  intro h
  induction h with
  | nil => intro a o o0 hget; simp [heapGet] at hget
  | cons kv t ih =>
    intro a o o0 hget
    by_cases hk : kv.1 = a
    · unfold heapGet heapSet
      rw [List.map_cons, if_pos hk]
      rw [List.find?_cons_of_pos _ (by simp)]
      rfl
    · have hne : ((kv.1 == a)) = false := by simp [hk]
      have hget2 : heapGet t a = some o0 := by
        unfold heapGet at hget
        rwa [List.find?_cons_of_neg _ (by simp [hk])] at hget
      have hrec := ih a o o0 hget2
      unfold heapGet heapSet at hrec ⊢
      rw [List.map_cons, if_neg hk, List.find?_cons_of_neg _ (by simp [hk])]
      exact hrec

/-- `heapSet` at `a` leaves every other address's object unchanged. -/
theorem heapGet_heapSet_ne :
    ∀ (h : List (Nat × PObj)) (a b : Nat) (o : PObj), b ≠ a →
      heapGet (heapSet h a o) b = heapGet h b := by
  intro h
  induction h with
  | nil => intro a b o hne; rfl
  | cons kv t ih =>
    intro a b o hne
    unfold heapGet heapSet
    rw [List.map_cons]
    by_cases hk : kv.1 = a
    · rw [if_pos hk]
      rw [List.find?_cons_of_neg _ (by simp; exact fun hEq => (hne hEq.symm).elim)]
      rw [List.find?_cons_of_neg _ (by simp [hk]; exact fun hEq => (hne hEq.symm).elim)]
      have hrec := ih a b o hne
      unfold heapGet heapSet at hrec
      exact hrec
    · rw [if_neg hk]
      by_cases hb : kv.1 = b
      · rw [List.find?_cons_of_pos _ (by simp [hb]), List.find?_cons_of_pos _ (by simp [hb])]
      · rw [List.find?_cons_of_neg _ (by simp [hb]), List.find?_cons_of_neg _ (by simp [hb])]
        have hrec := ih a b o hne
        unfold heapGet heapSet at hrec
        exact hrec

/-! ### Claim theorems -/

/-- Claim C1 (code bug): the claim says every `flush()` that passes the
guard clears `Flushing` and advances the deadline on exit even when a bulk
insert fails.  `src/mongodb.js` has no try/finally around the loop, so when
`insertMany` throws the exception propagates (first conjunct) before lines
157-158 run: the flag is still set, the deadline still the old one, and —
refuting the claim's parenthetical — every later `flush()` is permanently
blocked: it issues no call and changes nothing. -/
theorem C1_failed_flush_wedges_engine :
    (flush insAllFail 1000 (sN 5 10)).2.2 = true ∧
    (flush insAllFail 1000 (sN 5 10)).1.flushing = true ∧
    (flush insAllFail 1000 (sN 5 10)).1.flushExpiry = 0 ∧
    (flush insAllOk 2000 (flush insAllFail 1000 (sN 5 10)).1).2.1 = [] ∧
    (flush insAllOk 2000 (flush insAllFail 1000 (sN 5 10)).1).1
      = (flush insAllFail 1000 (sN 5 10)).1 := by
  decide

/-- Claim C2, counterexample: two records with the same payload (including
the producer-supplied `time = 5`) staged at `now = 0` and `now = 1000` get
different `uid`s — `getPoint` serializes the record *after* writing
`expiry = now + ttl`, so the fingerprint depends on the staging instant —
and staging both yields two buffer entries, not one. -/
theorem C2_counterexample :
    (getPoint 0 60000 (rawP "1")).uid ≠ (getPoint 1000 60000 (rawP "1")).uid ∧
    (mapSet (mapSet [] (getPoint 0 60000 (rawP "1")).uid (getPoint 0 60000 (rawP "1")))
        (getPoint 1000 60000 (rawP "1")).uid (getPoint 1000 60000 (rawP "1"))).length = 2 := by
  decide

/-- Claim C2, amended: the fingerprint is deterministic in the *serialized
record*, which includes the engine-assigned `time` and `expiry`: whenever two
records serialize identically (in particular, identical payloads staged at
the same instant with the same ttl) their `uid`s coincide and staging both
leaves exactly one buffer entry.  Payload-identity alone is not enough
(see the counterexample). -/
theorem C2_fingerprint_of_serialization (r1 r2 : RawPoint) (now1 now2 ttl : Nat)
    (h : pointJson r1 (r1.time.getD now1) (now1 + ttl)
       = pointJson r2 (r2.time.getD now2) (now2 + ttl)) :
    (getPoint now1 ttl r1).uid = (getPoint now2 ttl r2).uid ∧
    (mapSet (mapSet [] (getPoint now1 ttl r1).uid (getPoint now1 ttl r1))
        (getPoint now2 ttl r2).uid (getPoint now2 ttl r2)).length = 1 := by
  have hu : (getPoint now1 ttl r1).uid = (getPoint now2 ttl r2).uid := by
    show uidOf (pointJson r1 (r1.time.getD now1) (now1 + ttl))
        = uidOf (pointJson r2 (r2.time.getD now2) (now2 + ttl))
    exact congrArg uidOf h
  refine ⟨hu, ?_⟩
  rw [hu]
  exact mapSet_mapSet_nil_length _ _ _

/-- Witness for C2: same payload, same staging instant — equal `uid`s, one
buffer entry. -/
theorem C2_witness :
    (getPoint 0 60000 (rawP "1")).uid = (getPoint 0 60000 (rawP "1")).uid ∧
    (mapSet (mapSet [] (getPoint 0 60000 (rawP "1")).uid (getPoint 0 60000 (rawP "1")))
        (getPoint 0 60000 (rawP "1")).uid (getPoint 0 60000 (rawP "1"))).length = 1 :=
  C2_fingerprint_of_serialization (rawP "1") (rawP "1") 0 0 60000 rfl

/-- Claim C3, counterexample: 15 staged points, `batchSize = 10`, the second
`insertMany` fails.  The exception escapes `flush` (first conjunct), two
calls were issued, and the five records of the failed batch (keys 10-14) are
still **in** the buffer afterwards — they were never deleted, because
deletion happens only after a successful insert (src/mongodb.js 149-151) —
refuting "the records of the failed batch end up outside the buffer". -/
theorem C3_counterexample :
    (flush insFailSecond 100 (sN 15 10)).2.2 = true ∧
    (flush insFailSecond 100 (sN 15 10)).2.1.length = 2 ∧
    (flush insFailSecond 100 (sN 15 10)).1.buffer.map Prod.fst = [10, 11, 12, 13, 14] := by
  decide

/-- Claim C3, amended: when the `insertMany` of batch `j` fails (all earlier
ones succeeded), no further batches are issued (`j + 1` calls in total), the
records of the `j` previously succeeded batches are removed from the buffer,
the failed batch's records **remain in** the buffer (everything from index
`j * batchSize` on is still there), and the error is *not* confined to a
diagnostic: the exception propagates out of `flush()` with `flushing` left
set and the deadline not advanced. -/
theorem C3_flush_failure (s : MState) (ins : Nat → Bool) (now j : Nat)
    (hfl : s.flushing = false) (hco : s.isConnected = true) (hk : 0 < s.batchSize)
    (hwf : BufWF s.buffer)
    (hpre : ∀ b, b < j → ins b = true) (hj : ins j = false)
    (hlt : j * s.batchSize < s.buffer.length) :
    (flush ins now s).2.2 = true ∧
    (flush ins now s).2.1.length = j + 1 ∧
    (flush ins now s).1.buffer = s.buffer.drop (j * s.batchSize) ∧
    (flush ins now s).1.flushing = true ∧
    (flush ins now s).1.flushExpiry = s.flushExpiry := by
  have hgo := flushGo_fail ins now s.batchSize hk j { s with flushing := true } []
    hwf
    (by intro b hb; exact hpre b (by simpa using hb))
    (by simpa using hj)
    hlt
  unfold flush
  rw [if_neg (by simp [hfl, hco])]
  refine ⟨hgo.2.2, ?_, ?_, ?_, ?_⟩
  · have h2 := hgo.2.1
    simpa using h2
  · have h3 := congrArg MState.buffer hgo.1
    exact h3
  · have h3 := congrArg MState.flushing hgo.1
    exact h3
  · have h3 := congrArg MState.flushExpiry hgo.1
    exact h3

/-- Witness for C3 at the concrete instance of the counterexample. -/
theorem C3_witness :
    (flush insFailSecond 100 (sN 15 10)).2.2 = true ∧
    (flush insFailSecond 100 (sN 15 10)).2.1.length = 1 + 1 ∧
    (flush insFailSecond 100 (sN 15 10)).1.buffer
      = (sN 15 10).buffer.drop (1 * (sN 15 10).batchSize) ∧
    (flush insFailSecond 100 (sN 15 10)).1.flushing = true ∧
    (flush insFailSecond 100 (sN 15 10)).1.flushExpiry = (sN 15 10).flushExpiry :=
  C3_flush_failure (sN 15 10) insFailSecond 100 1 rfl rfl (by decide)
    ⟨by decide, by decide⟩
    (by intro b hb; interval_cases b; rfl)
    rfl (by decide)

/-- Claim C4 (code bug): with `flushSecs = 0` the plugin schema says "don't
periodically flush", but `start` then leaves `flushMillis = 0`, so the
deadline is armed at the start instant itself and every housekeeping tick
finds `now > flushExpiry` and runs a time-based flush.  Concretely: a record
staged at `t = 0` triggers no flush at send time (first conjunct), yet the
tick at `t = 30000` issues a bulk insert (second conjunct).  The
size-triggered flush of the claim's second half does still fire: with
`batchSize = 2`, the second send issues one bulk insert of 2 documents
(third conjunct). -/
theorem C4_zero_interval_still_flushes :
    (send insAllOk insAllOk 0 (rawP "1") (startState 0 0 180 100 1000)).calls = [] ∧
    (housekeeping insAllOk 30000 c4Tick).2.1.length = 1 ∧
    ((send insAllOk insAllOk 0 (rawP "2")
        (send insAllOk insAllOk 0 (rawP "1") (startState 0 0 180 2 1000)).state).calls).map
      List.length = [2] := by
  decide

/-- Claim C5, counterexample: `send` on a disconnected engine whose connect
attempts all fail makes its one connect sequence (6 attempts), stages
nothing — but the claim's "no exception escapes to the caller" is false:
the `await this.connect()` on line 100 sits outside `send`'s try/catch, so
the connection error escapes as a rejected promise. -/
theorem C5_counterexample :
    (send connNever insAllOk 0 (rawP "1") discState).res = SendResult.connErrEscaped ∧
    (send connNever insAllOk 0 (rawP "1") discState).state = discState ∧
    (send connNever insAllOk 0 (rawP "1") discState).connAttempts = 6 := by
  decide

/-- Claim C5, amended: a `send` in the `Disconnected` state runs exactly one
connect sequence (the default 6 attempts); when every attempt fails the
record is not staged, the whole state — buffer included — is unchanged, no
bulk insert is issued, but the connection error **does** escape `send` (the
reconnect call is outside its try/catch). -/
theorem C5_send_disconnected (s : MState) (ok ins : Nat → Bool) (now : Nat) (r : RawPoint)
    (hd : s.isConnected = false) (hfail : ∀ i, ok i = false) :
    send ok ins now r s = ⟨s, SendResult.connErrEscaped, [], 6⟩ := by
  have hc := connectGo_fail ok 1000 hfail 5 0
  unfold send
  rw [if_neg (by simp [hd])]
  unfold connect
  rw [hc]
  rfl

/-- Witness for C5 at a concrete disconnected engine. -/
theorem C5_witness :
    send connNever insAllOk 0 (rawP "1") discState
      = ⟨discState, SendResult.connErrEscaped, [], 6⟩ :=
  C5_send_disconnected discState connNever insAllOk 0 (rawP "1") rfl (fun _ => rfl)

/-- Claim C6: the buffer never exceeds `maxBuffer`.  A `send` on a connected
engine whose buffer already holds at least `maxBuffer` entries returns the
state completely unchanged with the capacity error (nothing staged, nothing
evicted, no insert issued) — the throw on line 105 happens before `getPoint`
runs; on every path `send` keeps `size ≤ maxBuffer`; and concretely,
sending `maxBuffer + 1 = 4` distinct records into an engine with
`maxBuffer = 3` yields exactly one `CapacityExceeded` as the last result,
with the buffer size ending at 3. -/
theorem C6_capacity (s : MState) (ok ins : Nat → Bool) (now : Nat) (r : RawPoint)
    (hle : s.buffer.length ≤ s.maxBuffer) :
    (s.isConnected = true → s.maxBuffer ≤ s.buffer.length →
        send ok ins now r s = ⟨s, SendResult.capacityErr, [], 0⟩) ∧
    (send ok ins now r s).state.buffer.length ≤ s.maxBuffer ∧
    (sendFold insAllOk insAllOk 0 fourRaws capState).2
        = [SendResult.ok, SendResult.ok, SendResult.ok, SendResult.capacityErr] ∧
    (sendFold insAllOk insAllOk 0 fourRaws capState).1.buffer.length = 3 := by
  refine ⟨?_, send_buffer_le ok ins now r s hle, by decide, by decide⟩
  intro hc hfull
  unfold send
  rw [if_pos hc]
  unfold sendBody
  rw [if_pos hfull]

/-- Witness for C6: a connected engine with `maxBuffer = 3` and 3 staged
entries rejects the fourth record with the buffer untouched. -/
theorem C6_witness :
    send insAllOk insAllOk 0 (rawP "9") fullState
      = ⟨fullState, SendResult.capacityErr, [], 0⟩ ∧
    (send insAllOk insAllOk 0 (rawP "9") fullState).state.buffer.length
      ≤ fullState.maxBuffer :=
  ⟨(C6_capacity fullState insAllOk insAllOk 0 (rawP "9") (by decide)).1 rfl (by decide),
   (C6_capacity fullState insAllOk insAllOk 0 (rawP "9") (by decide)).2.1⟩

/-- Claim C7: on a connected, idle engine with positive batch size and a
well-formed buffer, a fully successful `flush` issues exactly the chunks of
the buffer snapshot — `⌈size / batchSize⌉` bulk-insert calls, the count
computed once at flush start — and leaves the buffer empty, the flag clear
and the deadline advanced.  Concretely, 25 staged records with
`batchSize = 10` give exactly 3 calls of sizes 10, 10 and 5 and an empty
buffer. -/
theorem C7_flush_determinism (s : MState) (ins : Nat → Bool) (now : Nat)
    (hfl : s.flushing = false) (hco : s.isConnected = true) (hk : 0 < s.batchSize)
    (hwf : BufWF s.buffer) (hins : ∀ b, ins b = true) :
    (flush ins now s).2.1 = chunksOf s.batchSize (s.buffer.map Prod.snd) ∧
    (flush ins now s).2.1.length = (s.buffer.length + s.batchSize - 1) / s.batchSize ∧
    (flush ins now s).1.buffer = [] ∧
    (flush ins now s).1.flushing = false ∧
    (flush ins now s).1.flushExpiry = now + s.flushMillis ∧
    (flush insAllOk 100 (sN 25 10)).2.1.map List.length = [10, 10, 5] ∧
    (flush insAllOk 100 (sN 25 10)).1.buffer = [] := by
  have hgo := flushGo_success ins now s.batchSize hk hins s.buffer.length
    { s with flushing := true } [] le_rfl hwf
  have hflush : flush ins now s
      = flushGo ins now (chunksOf s.batchSize (s.buffer.map Prod.snd))
          { s with flushing := true } [] := by
    unfold flush
    rw [if_neg (by simp [hfl, hco])]
  have hcalls : (flush ins now s).2.1 = chunksOf s.batchSize (s.buffer.map Prod.snd) := by
    rw [hflush]
    have h2 := congrArg (fun x => x.2.1) hgo
    simpa using h2
  refine ⟨hcalls, ?_, ?_, ?_, ?_, by decide, by decide⟩
  · rw [hcalls]
    have hl := chunksOf_length_aux hk (s.buffer.map Prod.snd).length
      (s.buffer.map Prod.snd) le_rfl
    rw [List.length_map] at hl
    exact hl
  · rw [hflush]
    have h2 := congrArg (fun x => x.1.buffer) hgo
    exact h2
  · rw [hflush]
    have h2 := congrArg (fun x => x.1.flushing) hgo
    exact h2
  · rw [hflush]
    have h2 := congrArg (fun x => x.1.flushExpiry) hgo
    exact h2

/-- Witness for C7 at the concrete scenario of the claim. -/
theorem C7_witness :
    (flush insAllOk 100 (sN 25 10)).2.1.length
      = ((sN 25 10).buffer.length + (sN 25 10).batchSize - 1) / (sN 25 10).batchSize ∧
    (flush insAllOk 100 (sN 25 10)).1.buffer = [] :=
  ⟨(C7_flush_determinism (sN 25 10) insAllOk 100 rfl rfl (by decide)
      ⟨by decide, by decide⟩ (fun _ => rfl)).2.1,
   (C7_flush_determinism (sN 25 10) insAllOk 100 rfl rfl (by decide)
      ⟨by decide, by decide⟩ (fun _ => rfl)).2.2.1⟩

/-- Claim C8, counterexample: the claim says `connect(maxAttempts, …)` tries
at most `maxAttempts` times, but `for (attempt = 0; attempt <= retryCount;
…)` makes `retryCount + 1` attempts: with the parameter 1 the code makes 2
attempts. -/
theorem C8_counterexample :
    ¬ ((connect connNever 1 1000).2.1 ≤ 1) ∧ (connect connNever 1 1000).2.1 = 2 := by
  decide

/-- Claim C8, amended: `connect(retryCount, retryDelay)` makes up to
`retryCount + 1` attempts (one initial try plus `retryCount` retries).
When every attempt fails it makes exactly `retryCount + 1` attempts,
waiting `retryDelay * 2 ^ attempt` after each failed attempt but the last,
and ends unconnected (the last error is rethrown, `isConnected` was never
set).  When the first attempt succeeds it returns connected after one
attempt with no waits. -/
theorem C8_connect_retries (ok : Nat → Bool) (retryCount retryDelay : Nat) :
    ((∀ i, ok i = false) →
      connect ok retryCount retryDelay
        = (false, retryCount + 1,
           (List.range retryCount).map (fun i => retryDelay * 2 ^ i))) ∧
    (ok 0 = true → connect ok retryCount retryDelay = (true, 1, [])) := by
  constructor
  · intro hfail
    have hc := connectGo_fail ok retryDelay hfail retryCount 0
    unfold connect
    rw [hc]
    simp
  · intro h0
    cases retryCount with
    | zero => simp [connect, connectGo, h0]
    | succ n => simp [connect, connectGo, h0]

/-- Witness for C8: with `retryCount = 2` and `retryDelay = 500` and every
attempt failing, connect makes 3 attempts with backoffs 500 and 1000. -/
theorem C8_witness :
    connect connNever 2 500 = (false, 3, [500, 1000]) :=
  ((C8_connect_retries connNever 2 500).1 (fun _ => rfl)).trans (by decide)

/-- Claim C9: the single-flight guard on line 134 — any `flush()` invoked
while `flushing` is already set returns immediately: no bulk-insert call is
issued, the state (buffer included) is untouched, and no error occurs; so
of two overlapping invocations only the first produces insert calls. -/
theorem C9_single_flight (s : MState) (ins : Nat → Bool) (now : Nat)
    (h : s.flushing = true) :
    flush ins now s = (s, [], false) := by
  unfold flush
  rw [if_pos (Or.inl h)]

/-- Witness for C9 on a concrete mid-flight state. -/
theorem C9_witness : flush insAllOk 100 busyState = (busyState, [], false) :=
  C9_single_flight busyState insAllOk 100 rfl

/-- Claim C10: `send` mutates the caller's record in place.  Staging the
object at address `a` (lines 107-109: `point = this.getPoint(point);
this.buffer.set(point.uid, point)`) keeps the heap's addresses unchanged
(no copy is allocated), rewrites the object at `a` itself with the
engine-assigned `time` (coerced/defaulted), `expiry = now + ttl` and
`uid` (the fingerprint), leaves every other address untouched, and the
buffer entry stores that same address `a` — it aliases the caller's
object. -/
theorem C10_send_mutates_in_place (h : List (Nat × PObj)) (buf : List (Nat × Nat))
    (a now ttl : Nat) (o : PObj) (hget : heapGet h a = some o) :
    (stagePoint now ttl h buf a).1.map Prod.fst = h.map Prod.fst ∧
    heapGet (stagePoint now ttl h buf a).1 a
      = some ⟨{ o.raw with time := some (o.raw.time.getD now) }, some (now + ttl),
          some (uidOf (pointJson o.raw (o.raw.time.getD now) (now + ttl)))⟩ ∧
    (∀ b, b ≠ a → heapGet (stagePoint now ttl h buf a).1 b = heapGet h b) ∧
    (uidOf (pointJson o.raw (o.raw.time.getD now) (now + ttl)), a)
      ∈ (stagePoint now ttl h buf a).2 := by
  have hsp : stagePoint now ttl h buf a
      = (heapSet h a ⟨{ o.raw with time := some (o.raw.time.getD now) }, some (now + ttl),
           some (uidOf (pointJson o.raw (o.raw.time.getD now) (now + ttl)))⟩,
         mapSet buf (uidOf (pointJson o.raw (o.raw.time.getD now) (now + ttl))) a) := by
    unfold stagePoint
    rw [hget]
  refine ⟨?_, ?_, ?_, ?_⟩
  · rw [hsp]
    exact heapSet_fst h a _
  · rw [hsp]
    exact heapGet_heapSet_self h a _ o hget
  · intro b hb
    rw [hsp]
    exact heapGet_heapSet_ne h a b _ hb
  · rw [hsp]
    exact mapSet_self_mem buf _ a

/-- Witness for C10 on a one-object heap: after staging, the addresses are
unchanged and the buffer holds the caller's address 7. -/
theorem C10_witness :
    (stagePoint 0 60000 heap7 [] 7).1.map Prod.fst = heap7.map Prod.fst ∧
    (uidOf (pointJson o7.raw (o7.raw.time.getD 0) (0 + 60000)), 7)
      ∈ (stagePoint 0 60000 heap7 [] 7).2 := by
  have h := C10_send_mutates_in_place heap7 [] 7 0 60000 o7 rfl
  exact ⟨h.1, h.2.2.2⟩

end SigMongo
